import Mathlib

/-!
# Verification of the outline-cli typed-value layer, pinned transport and API client

Shallow embedding of the Go sources of `art-shutter/outline-cli`:

* `internal/config/manager.go` — `ParseDataSize`, `AddServer`,
  `DeleteAccessKeyByName` (orchestration over the API client);
* the value types of the CLI front end (`DataSize`, `CertSHA256`, `Port`,
  `EncryptionMethod` with their `UnmarshalText`/`String` hooks);
* `internal/api/client.go` — the `VerifyPeerCertificate` callback installed
  by `NewAPIClient` (certificate pinning via SHA-256 of the first peer
  certificate) and the HTTP-status handling of every Management API
  operation.

Machine integers are modelled as `Nat`/`Int` with explicit wrap-around where
the Go code converts (`uint64` → `int64`).  The `float64` arithmetic inside
`humanize.ParseBytes` (library `github.com/dustin/go-humanize` v1.0.1) is
modelled exactly over `ℚ`: every intermediate Go float is a rational of the
IEEE-754 binary64 grid, and `floatRound` below is round-to-nearest, ties to
even, which is precisely what `strconv.ParseFloat` and float multiplication
guarantee in Go.
-/

/-! ## Go string helpers (ASCII fragment)

`strings.TrimSpace` trims Unicode white space; all inputs relevant to the
development are ASCII, and the ASCII white-space set is modelled.  `ToUpper`
and `ToLower` are modelled on the ASCII letters, which covers hex digits,
unit suffixes and method names. -/

def isAsciiDigit (c : Char) : Bool :=
  ('0' ≤ c) && (c ≤ '9')

def isGoSpace (c : Char) : Bool :=
  (c = ' ') || (c = '\t') || (c = '\n') || (c = '\x0b') || (c = '\x0c') || (c = '\r')

def trimL (cs : List Char) : List Char :=
  ((cs.dropWhile isGoSpace).reverse.dropWhile isGoSpace).reverse

def goTrimSpace (s : String) : String :=
  String.mk (trimL s.data)

def asciiToLower (c : Char) : Char :=
  if ('A' ≤ c) && (c ≤ 'Z') then Char.ofNat (c.toNat + 32) else c

def asciiToUpper (c : Char) : Char :=
  if ('a' ≤ c) && (c ≤ 'z') then Char.ofNat (c.toNat - 32) else c

def goToLower (s : String) : String :=
  String.mk (s.data.map asciiToLower)

def goToUpper (s : String) : String :=
  String.mk (s.data.map asciiToUpper)

/-- Value of a list of ASCII decimal digits, most significant first. -/
def natOfDigits (cs : List Char) : Nat :=
  cs.foldl (fun a c => 10 * a + (c.toNat - 48)) 0

def isHexDigit (c : Char) : Bool :=
  isAsciiDigit c || (('a' ≤ c) && (c ≤ 'f')) || (('A' ≤ c) && (c ≤ 'F'))

/-! ## Exact model of Go `float64` rounding

A Go `float64` value is represented by the rational it denotes.  `floatRound`
maps an exact rational to the nearest representable binary64 value (round to
nearest, ties to even), which is the rounding Go guarantees both for
`strconv.ParseFloat` and for float multiplication.  Overflow to infinity
(values rounding to `2^1024` or beyond) is detected by comparison;
subnormal-range values do not arise in this development (all magnitudes that
matter are ≥ 1 or simple decimals such as `1.5`). -/

def pow2Q : Int → ℚ
  | Int.ofNat n => ((2 ^ n : Nat) : ℚ)
  | Int.negSucc n => 1 / ((2 ^ (n + 1) : Nat) : ℚ)

/-- Fuel-driven binary logarithm (equal to `Nat.log2`; written with
structural recursion so that it evaluates inside `decide`). -/
def natLog2Aux : Nat → Nat → Nat
  | _, 0 => 0
  | n, fuel + 1 => if 2 ≤ n then natLog2Aux (n / 2) fuel + 1 else 0

def natLog2 (n : Nat) : Nat :=
  natLog2Aux n n

/-- `floorLog2 q` is `⌊log₂ q⌋` for `q > 0`. -/
def floorLog2 (q : ℚ) : Int :=
  if 1 ≤ q then
    Int.ofNat (natLog2 (q.num.toNat / q.den))
  else
    let j := natLog2 (q.den / q.num.toNat)
    if q.num = 1 ∧ q.den = 2 ^ j then -(j : Int) else -((j : Int) + 1)

/-- Round a nonnegative rational to the nearest natural, ties to even. -/
def roundHalfEven (x : ℚ) : Nat :=
  let n := x.floor.toNat
  let r := x - (n : ℚ)
  if r < 1 / 2 then n
  else if 1 / 2 < r then n + 1
  else if n % 2 = 0 then n else n + 1

/-- Round an exact nonnegative rational to the IEEE-754 binary64 grid
(round to nearest, ties to even). -/
def floatRound (q : ℚ) : ℚ :=
  if q ≤ 0 then 0
  else
    let shift := floorLog2 q - 52
    let m := roundHalfEven (q * pow2Q (-shift))
    (m : ℚ) * pow2Q shift

/-- `math.MaxFloat64` as an exact rational. -/
def maxFloat64Q : ℚ :=
  ((2 ^ 53 - 1 : Nat) : ℚ) * pow2Q 971

/-! ## `humanize.ParseBytes` (go-humanize v1.0.1)

The library scans a prefix of digits, dots and commas, parses it with
`strconv.ParseFloat` (commas removed), looks the remaining suffix up in its
unit table after `TrimSpace` and `ToLower`, multiplies, rejects values at or
above `math.MaxFloat64`, and converts to `uint64`.

The Go scan classifies runes with `unicode.IsDigit`; only ASCII digits are
modelled.  A non-ASCII Unicode digit makes the real code feed a non-ASCII
`num` to `ParseFloat` (which fails), while the model pushes the character
into the unit suffix (whose lookup fails): both sides return an error, and
the callers in this repository wrap every `ParseBytes` error into one fixed
message, so the two are observationally equal for everything proved below.

Conversion of an out-of-range float to `uint64` is implementation-specific
in Go; the model takes the value modulo `2^64`, and no theorem below
depends on that branch. -/

def scanNum : List Char → List Char × List Char
  | [] => ([], [])
  | c :: cs =>
    if isAsciiDigit c || (c = '.') || (c = ',') then
      let p := scanNum cs
      (c :: p.1, p.2)
    else ([], c :: cs)

/-- `strconv.ParseFloat` on a comma-free scan result: at least one digit, at
most one dot; the decimal value is then correctly rounded to binary64, and
values rounding to the infinite range are rejected (`ErrRange`). -/
def parseFloatRat (cs : List Char) : Option ℚ :=
  if cs.any (fun c => !(isAsciiDigit c || (c = '.'))) then none
  else if cs.count '.' ≥ 2 then none
  else
    let ip := cs.takeWhile (fun c => c ≠ '.')
    let fp := (cs.dropWhile (fun c => c ≠ '.')).drop 1
    if ip.length + fp.length = 0 then none
    else
      let q : ℚ := (natOfDigits ip : ℚ) + (natOfDigits fp : ℚ) / ((10 ^ fp.length : Nat) : ℚ)
      let r := floatRound q
      if pow2Q 1024 ≤ r then none else some r

/-- The unit table of go-humanize v1.0.1 (`bytesSizeTable`), keys lowercase. -/
def bytesSizeTable : List (String × Nat) :=
  [("b", 1), ("kib", 2 ^ 10), ("kb", 10 ^ 3), ("mib", 2 ^ 20), ("mb", 10 ^ 6),
   ("gib", 2 ^ 30), ("gb", 10 ^ 9), ("tib", 2 ^ 40), ("tb", 10 ^ 12),
   ("pib", 2 ^ 50), ("pb", 10 ^ 15), ("eib", 2 ^ 60), ("eb", 10 ^ 18),
   ("", 1), ("ki", 2 ^ 10), ("k", 10 ^ 3), ("mi", 2 ^ 20), ("m", 10 ^ 6),
   ("gi", 2 ^ 30), ("g", 10 ^ 9), ("ti", 2 ^ 40), ("t", 10 ^ 12),
   ("pi", 2 ^ 50), ("p", 10 ^ 15), ("ei", 2 ^ 60), ("e", 10 ^ 18)]

def lookupUnit (key : String) : Option Nat :=
  (bytesSizeTable.find? (fun p => p.1 = key)).map (fun p => p.2)

/-- `humanize.ParseBytes`, returning the `uint64` result as a `Nat` below
`2^64`, or `none` for every error return. -/
def humanizeParseBytes (s : String) : Option Nat :=
  let p := scanNum s.data
  let num := p.1.filter (fun c => c ≠ ',')
  match parseFloatRat num with
  | none => none
  | some f =>
    match lookupUnit (goToLower (goTrimSpace (String.mk p.2))) with
    | none => none
    | some m =>
      let prod := floatRound (f * (m : ℚ))
      if maxFloat64Q ≤ prod then none
      else some (prod.floor.toNat % 2 ^ 64)

/-- Go conversion `int64(u)` of a `uint64` value `u < 2^64`. -/
def toInt64 (u : Nat) : Int :=
  if u < 2 ^ 63 then (u : Int) else (u : Int) - 2 ^ 64

inductive DataSizeError where
  | invalidFormat (got : String)
deriving DecidableEq, Repr

/-- `ParseDataSize` from `internal/config/manager.go` (the identical logic
also implements `DataSize.UnmarshalText` in the CLI front end): empty input
(checked before trimming) parses to zero with no error; otherwise the input
is trimmed and handed to `humanize.ParseBytes`, whose error is replaced by a
fixed message; the `uint64` result is converted to `int64`.  Mirrors the Go
pair return `(int64, error)`. -/
def parseDataSize (sizeStr : String) : Int × Option DataSizeError :=
  if sizeStr = "" then (0, none)
  else
    let t := goTrimSpace sizeStr
    match humanizeParseBytes t with
    | none => (0, some (.invalidFormat t))
    | some u => (toInt64 u, none)

/-! ## `DataSize.String` / `MarshalText` (formatting) -/

/-- Largest `e` with `base^e ≤ s` (for `s ≥ 1`). -/
def floorLogBase (base s : Nat) : Nat :=
  Nat.log base s

/-- Models `humanize.Bytes` (decimal units, one decimal place below 10).
The library computes the displayed value with `float64` logarithm and
`printf`; the model uses exact integer arithmetic for the same quantities.
Only the zero case of `dataSizeString` (which never reaches this function)
is used by any theorem below. -/
def humanizeBytes (s : Nat) : String :=
  if s < 10 then toString s ++ " B"
  else
    let sizes := ["B", "kB", "MB", "GB", "TB", "PB", "EB"]
    let e := floorLogBase 1000 s
    let sfx := sizes.getD e ""
    let tenths := (s * 10 + 1000 ^ e / 2) / 1000 ^ e
    if tenths < 100 then
      toString (tenths / 10) ++ "." ++ toString (tenths % 10) ++ " " ++ sfx
    else
      toString ((tenths + 5) / 10) ++ " " ++ sfx

/-- `DataSize.String` (and `MarshalText`) from the CLI value types: zero
formats to the empty string, anything else is rendered by
`humanize.Bytes` on the `uint64` reinterpretation of the field. -/
def dataSizeString (bytes : Int) : String :=
  if bytes = 0 then "" else humanizeBytes ((bytes % 2 ^ 64).toNat)

/-! ## `CertSHA256.UnmarshalText` -/

inductive CertError where
  | empty
  | badHex
deriving DecidableEq, Repr

/-- `hex.DecodeString` succeeds exactly on even-length strings of hex
digits (the library reports an invalid byte or an odd length as distinct
errors; both collapse to `badHex` here, and no claim depends on which). -/
def hexDecodable (cs : List Char) : Bool :=
  cs.all isHexDigit && cs.length % 2 = 0

/-- `CertSHA256.UnmarshalText`: empty input (checked before trimming) is
rejected; the trimmed rest must decode as hexadecimal and is stored as
given. -/
def certSHA256Unmarshal (text : String) : Except CertError String :=
  if text = "" then .error .empty
  else
    let hash := goTrimSpace text
    if hexDecodable hash.data then .ok hash else .error .badHex

/-! ## `Port.UnmarshalText` -/

inductive PortError where
  | empty
  | notANumber
  | outOfRange (got : Int)
deriving DecidableEq, Repr

/-- `strconv.Atoi`: optional sign, then one or more ASCII digits, value
within `int64`; every error return (syntax or range) is `none`. -/
def goAtoi (cs : List Char) : Option Int :=
  match cs with
  | [] => none
  | c :: rest =>
    let sign : Int := if c = '-' then -1 else 1
    let digits := if (c = '+') || (c = '-') then rest else cs
    if digits = [] then none
    else if digits.any (fun d => !isAsciiDigit d) then none
    else
      let v : Int := sign * (natOfDigits digits : Int)
      if v < -(2 ^ 63) ∨ (2 ^ 63 - 1 : Int) < v then none
      else some v

/-- `Port.UnmarshalText`: empty input (checked before trimming) is
rejected; the trimmed rest must parse with `strconv.Atoi` and lie in
`[1, 65535]`. -/
def portUnmarshal (text : String) : Except PortError Int :=
  if text = "" then .error .empty
  else
    match goAtoi (goTrimSpace text).data with
    | none => .error .notANumber
    | some port =>
      if port < 1 ∨ 65535 < port then .error (.outOfRange port)
      else .ok port

/-! ## `EncryptionMethod.UnmarshalText`

The valid-method set is a Go `map[string]bool`; membership is
order-independent, but the error message for an invalid method is built by
ranging over that map, and Go map iteration order is unspecified and
varies between runs.  The model therefore takes the iteration order as an
explicit parameter: every permutation of the valid-method set is an
admissible order for some run. -/

def validEncryptionMethods : List String :=
  ["aes-256-gcm", "aes-192-gcm", "aes-128-gcm", "chacha20-poly1305"]

def joinComma : List String → String
  | [] => ""
  | [s] => s
  | s :: rest => s ++ ", " ++ joinComma rest

/-- `EncryptionMethod.UnmarshalText`, parameterised by the map iteration
order `order` observed in the run being modelled. -/
def encryptionMethodUnmarshalWith (order : List String) (text : String) :
    Except String String :=
  if text = "" then .ok "aes-192-gcm"
  else
    let method := goTrimSpace text
    if validEncryptionMethods.contains method then .ok method
    else .error ("invalid encryption method. Valid methods are: " ++ joinComma order)

/-! ## SHA-256 (crypto/sha256) and hex encoding (encoding/hex)

A byte-level implementation of FIPS 180-4 SHA-256, used by the pinned
transport to hash the DER bytes of the first peer certificate.  Words are
`Nat` values kept below `2^32` by explicit reduction. -/

def w32 (x : Nat) : Nat := x % 4294967296

def rotr32 (x n : Nat) : Nat :=
  w32 ((x >>> n) ||| (x <<< (32 - n)))

def bsig0 (x : Nat) : Nat := (rotr32 x 2) ^^^ (rotr32 x 13) ^^^ (rotr32 x 22)

def bsig1 (x : Nat) : Nat := (rotr32 x 6) ^^^ (rotr32 x 11) ^^^ (rotr32 x 25)

def ssig0 (x : Nat) : Nat := (rotr32 x 7) ^^^ (rotr32 x 18) ^^^ (x >>> 3)

def ssig1 (x : Nat) : Nat := (rotr32 x 17) ^^^ (rotr32 x 19) ^^^ (x >>> 10)

def sha256K : List Nat :=
  [1116352408, 1899447441, 3049323471, 3921009573, 961987163,
   1508970993, 2453635748, 2870763221, 3624381080, 310598401,
   607225278, 1426881987, 1925078388, 2162078206, 2614888103,
   3248222580, 3835390401, 4022224774, 264347078, 604807628,
   770255983, 1249150122, 1555081692, 1996064986, 2554220882,
   2821834349, 2952996808, 3210313671, 3336571891, 3584528711,
   113926993, 338241895, 666307205, 773529912, 1294757372,
   1396182291, 1695183700, 1986661051, 2177026350, 2456956037,
   2730485921, 2820302411, 3259730800, 3345764771, 3516065817,
   3600352804, 4094571909, 275423344, 430227734, 506948616,
   659060556, 883997877, 958139571, 1322822218, 1537002063,
   1747873779, 1955562222, 2024104815, 2227730452, 2361852424,
   2428436474, 2756734187, 3204031479, 3329325298]

def sha256H0 : List Nat :=
  [1779033703, 3144134277, 1013904242, 2773480762, 1359893119,
   2600822924, 528734635, 1541459225]

/-- Big-endian bytes of `x`, `n` bytes wide. -/
def beBytes (n x : Nat) : List Nat :=
  match n with
  | 0 => []
  | k + 1 => beBytes k (x >>> 8) ++ [x % 256]

/-- FIPS 180-4 padding: append `0x80`, zeros to 56 mod 64, and the bit
length as a 64-bit big-endian integer. -/
def sha256Pad (msg : List Nat) : List Nat :=
  let len := msg.length
  let zeros := (64 + 56 - (len + 1) % 64) % 64
  msg ++ [0x80] ++ List.replicate zeros 0 ++ beBytes 8 (len * 8)

/-- Combine four consecutive bytes into big-endian 32-bit words. -/
def bytesToWords : List Nat → List Nat
  | a :: b :: c :: d :: rest => (a <<< 24 ||| b <<< 16 ||| c <<< 8 ||| d) :: bytesToWords rest
  | _ => []

/-- Extend a 16-word block by `fuel` scheduled words. -/
def sha256Extend (ws : List Nat) : Nat → List Nat
  | 0 => ws
  | n + 1 =>
    let i := ws.length
    let g := fun (k : Nat) => ws.getD (i - k) 0
    sha256Extend (ws ++ [w32 (g 16 + ssig0 (g 15) + g 7 + ssig1 (g 2))]) n

def sha256Round (st : List Nat) (kw : Nat × Nat) : List Nat :=
  match st with
  | [a, b, c, d, e, f, g, h] =>
    let t1 := w32 (h + bsig1 e + ((e &&& f) ^^^ ((w32 (4294967295 - e)) &&& g)) + kw.1 + kw.2)
    let t2 := w32 (bsig0 a + ((a &&& b) ^^^ (a &&& c) ^^^ (b &&& c)))
    [w32 (t1 + t2), a, b, c, w32 (d + t1), e, f, g]
  | _ => st

def sha256Block (h : List Nat) (block : List Nat) : List Nat :=
  let ws := sha256Extend (bytesToWords block) 48
  let st := (sha256K.zip ws).foldl sha256Round h
  (h.zip st).map (fun p => w32 (p.1 + p.2))

def chunks64Aux : Nat → List Nat → List (List Nat)
  | 0, _ => []
  | _, [] => []
  | fuel + 1, bs => bs.take 64 :: chunks64Aux fuel (bs.drop 64)

def chunks64 (bs : List Nat) : List (List Nat) :=
  chunks64Aux bs.length bs

/-- SHA-256 digest of a byte list, as 32 bytes. -/
def sha256Digest (msg : List Nat) : List Nat :=
  ((chunks64 (sha256Pad msg)).foldl sha256Block sha256H0).flatMap (beBytes 4)

def hexDigitChar (n : Nat) : Char :=
  if n < 10 then Char.ofNat (48 + n) else Char.ofNat (87 + n)

/-- `hex.EncodeToString`: lowercase hex of a byte list. -/
def hexEncodeToString (bs : List Nat) : String :=
  String.mk (bs.flatMap (fun b => [hexDigitChar (b / 16), hexDigitChar (b % 16)]))

/-! ## Pinned-certificate transport (`NewAPIClient` in client.go)

`VerifyPeerCertificate` receives the raw DER certificates presented by the
peer; an empty list is rejected with a distinct error, otherwise the
SHA-256 digest of the first certificate is hex-encoded, uppercased and
compared with the uppercased expected fingerprint. -/

inductive VerifyError where
  | noCertificates
  | sha256Mismatch
deriving DecidableEq, Repr

def verifyPeerCertificate (certSha256 : String) (rawCerts : List (List Nat)) :
    Except VerifyError Unit :=
  match rawCerts with
  | [] => .error .noCertificates
  | c :: _ =>
    let calculated := goToUpper (hexEncodeToString (sha256Digest c))
    if calculated ≠ goToUpper certSha256 then .error .sha256Mismatch
    else .ok ()

/-! ## Management API client (client.go): HTTP-status handling

Each operation first performs the HTTP exchange; this embedding models the
code that runs after the exchange returned a response (the `err != nil`
branch of `client.Do`/`Get`/`Post` aside, which returns that transport
error verbatim).  JSON decoding of success bodies is taken as a parameter
`decode`, since no claim below constrains the decoder itself.

Go functions return `(value, error)` pairs; the embedding mirrors them as
`Option value × Option GoError`.  On a non-success status code the source
reads the body, logs it, and executes `return nil, err` — where `err` is
the `nil` error of the successful exchange, so the returned error is `nil`.
The embedding reproduces this faithfully. -/

structure HTTPResponse where
  statusCode : Nat
  body : String
deriving DecidableEq, Repr

inductive GoError where
  | decodeError
deriving DecidableEq, Repr

structure DataLimit where
  bytes : Int
deriving DecidableEq, Repr

structure OutlineServer where
  name : String
  serverID : String
  metricsEnabled : Bool
  createdTimestampMs : Int
  version : String
  portForNewAccessKeys : Int
  hostnameForAccessKeys : String
  accessKeyDataLimit : Option DataLimit
deriving DecidableEq, Repr

structure AccessKey where
  id : String
  name : String
  password : String
  port : Int
  method : String
  accessURL : String
  dataLimit : Option DataLimit
deriving DecidableEq, Repr

/-- `GetServerInfo` after a completed exchange: on a non-200 status the
source logs status and body and returns `nil, err` with `err` still `nil`. -/
def getServerInfoHandle (decode : String → Option OutlineServer)
    (resp : HTTPResponse) : Option OutlineServer × Option GoError :=
  if resp.statusCode ≠ 200 then (none, none)
  else
    match decode resp.body with
    | none => (none, some .decodeError)
    | some server => (some server, none)

/-- `ListAccessKeys` after a completed exchange (success status 200). -/
def listAccessKeysHandle (decode : String → Option (List AccessKey))
    (resp : HTTPResponse) : Option (List AccessKey) × Option GoError :=
  if resp.statusCode ≠ 200 then (none, none)
  else
    match decode resp.body with
    | none => (none, some .decodeError)
    | some keys => (some keys, none)

/-- `CreateAccessKey` after a completed exchange (success status 201). -/
def createAccessKeyHandle (decode : String → Option AccessKey)
    (resp : HTTPResponse) : Option AccessKey × Option GoError :=
  if resp.statusCode ≠ 201 then (none, none)
  else
    match decode resp.body with
    | none => (none, some .decodeError)
    | some key => (some key, none)

/-- `DeleteAccessKey` after a completed exchange (success status 204): the
non-204 branch returns the `nil` error `err`, so the function never
reports the failure. -/
def deleteAccessKeyHandle (resp : HTTPResponse) : Option GoError :=
  if resp.statusCode ≠ 204 then none
  else none

/-- `RenameAccessKey` after a completed exchange (success status 204). -/
def renameAccessKeyHandle (resp : HTTPResponse) : Option GoError :=
  if resp.statusCode ≠ 204 then none
  else none

/-- `SetAccessKeyDataLimit` after a completed exchange (success 204). -/
def setAccessKeyDataLimitHandle (resp : HTTPResponse) : Option GoError :=
  if resp.statusCode ≠ 204 then none
  else none

/-- `RemoveAccessKeyDataLimit` after a completed exchange (success 204). -/
def removeAccessKeyDataLimitHandle (resp : HTTPResponse) : Option GoError :=
  if resp.statusCode ≠ 204 then none
  else none

/-- `GetTransferMetrics` after a completed exchange (success status 200). -/
def getTransferMetricsHandle (decode : String → Option (List (String × Int)))
    (resp : HTTPResponse) : Option (List (String × Int)) × Option GoError :=
  if resp.statusCode ≠ 200 then (none, none)
  else
    match decode resp.body with
    | none => (none, some .decodeError)
    | some metrics => (some metrics, none)

/-! ## Delete-by-name orchestration (`DeleteAccessKeyByName` in manager.go)

Given the key list that `ListAccessKeys` returned, the source scans for the
first key whose `Name` equals the requested name, breaking at that key and
remembering its `ID` in a variable initialised to `""`; the empty string
afterwards means "not found".  The outcome records whether a delete call is
issued and with which ID. -/

def findKeyID : List AccessKey → String → String
  | [], _ => ""
  | k :: ks, keyName => if k.name = keyName then k.id else findKeyID ks keyName

inductive ByNameOutcome where
  | notFound
  | deleted (keyID : String)
deriving DecidableEq, Repr

def deleteAccessKeyByName (accessKeys : List AccessKey) (keyName : String) :
    ByNameOutcome :=
  let keyID := findKeyID accessKeys keyName
  if keyID = "" then .notFound
  else .deleted keyID

/-- The linear scan as the specification words it: the first key whose name
equals the requested name (for comparison with `findKeyID`). -/
def firstNameMatch (accessKeys : List AccessKey) (keyName : String) :
    Option AccessKey :=
  accessKeys.find? (fun k => k.name = keyName)

/-! ## `AddServer` (manager.go)

The registry is the Go map `map[string]Server`, modelled as a function from
names to optional entries.  `saveConfig` performs file I/O outside the
embedding; `saved` records whether the code reaches the save call. -/

structure ServerEntry where
  name : String
  url : String
  certSha256 : String
deriving DecidableEq, Repr

def Servers : Type := String → Option ServerEntry

inductive AddServerError where
  | alreadyExists (name : String)
  | certRequired
deriving DecidableEq, Repr

structure AddServerResult where
  servers : Servers
  err : Option AddServerError
  saved : Bool

def addServer (servers : Servers) (name url certSha256 : String) :
    AddServerResult :=
  if (servers name).isSome then ⟨servers, some (.alreadyExists name), false⟩
  else if certSha256 = "" then ⟨servers, some .certRequired, false⟩
  else
    ⟨fun m => if m = name then some ⟨name, url, certSha256⟩ else servers m,
     none, true⟩

/-! ## Concrete fixtures used by the theorems below -/

/-- An access key with the given ID and name and zero remaining fields. -/
def mkKey (keyID keyName : String) : AccessKey :=
  ⟨keyID, keyName, "", 0, "", "", none⟩

/-- A one-entry registry fixture. -/
def demoServers : Servers :=
  fun n => if n = "alpha" then some ⟨"alpha", "https://a.example/s", "AB"⟩ else none

/-- Every case variant of the claimed decimal units (powers of 1000) and
binary units (powers of 1024), paired with its byte multiplier. -/
def unitSpellings : List (String × Nat) :=
  [("b", 1), ("B", 1), ("kb", 10 ^ 3), ("kB", 10 ^ 3), ("Kb", 10 ^ 3), ("KB", 10 ^ 3),
   ("mb", 10 ^ 6), ("mB", 10 ^ 6), ("Mb", 10 ^ 6), ("MB", 10 ^ 6), ("gb", 10 ^ 9),
   ("gB", 10 ^ 9), ("Gb", 10 ^ 9), ("GB", 10 ^ 9), ("tb", 10 ^ 12), ("tB", 10 ^ 12),
   ("Tb", 10 ^ 12), ("TB", 10 ^ 12), ("kib", 2 ^ 10), ("kiB", 2 ^ 10), ("kIb", 2 ^ 10),
   ("kIB", 2 ^ 10), ("Kib", 2 ^ 10), ("KiB", 2 ^ 10), ("KIb", 2 ^ 10), ("KIB", 2 ^ 10),
   ("mib", 2 ^ 20), ("miB", 2 ^ 20), ("mIb", 2 ^ 20), ("mIB", 2 ^ 20), ("Mib", 2 ^ 20),
   ("MiB", 2 ^ 20), ("MIb", 2 ^ 20), ("MIB", 2 ^ 20), ("gib", 2 ^ 30), ("giB", 2 ^ 30),
   ("gIb", 2 ^ 30), ("gIB", 2 ^ 30), ("Gib", 2 ^ 30), ("GiB", 2 ^ 30), ("GIb", 2 ^ 30),
   ("GIB", 2 ^ 30), ("tib", 2 ^ 40), ("tiB", 2 ^ 40), ("tIb", 2 ^ 40), ("tIB", 2 ^ 40),
   ("Tib", 2 ^ 40), ("TiB", 2 ^ 40), ("TIb", 2 ^ 40), ("TIB", 2 ^ 40)]

/-! ## Claim C1: failure statuses and the returned error -/

/-- C1: on every non-success HTTP status the client operations of
`client.go` return a `nil` error — not, as the specification claims, an
error carrying status and body.  The non-success branch executes
`return nil, err` where `err` is the nil error of the completed exchange;
in particular `DeleteAccessKey` on a `404` response with body `"not found"`
reports success, and in fact never reports any error for any response. -/
theorem c1_failure_status_returns_nil_error :
    deleteAccessKeyHandle ⟨404, "not found"⟩ = none ∧
    (∀ resp : HTTPResponse, deleteAccessKeyHandle resp = none) ∧
    (∀ (decode : String → Option OutlineServer) (body : String),
      getServerInfoHandle decode ⟨500, body⟩ = (none, none)) ∧
    (∀ (decode : String → Option (List AccessKey)) (body : String),
      listAccessKeysHandle decode ⟨500, body⟩ = (none, none)) ∧
    (∀ (decode : String → Option AccessKey) (body : String),
      createAccessKeyHandle decode ⟨500, body⟩ = (none, none)) ∧
    (∀ body : String, renameAccessKeyHandle ⟨500, body⟩ = none) ∧
    (∀ body : String, setAccessKeyDataLimitHandle ⟨500, body⟩ = none) ∧
    (∀ body : String, removeAccessKeyDataLimitHandle ⟨500, body⟩ = none) ∧
    (∀ (decode : String → Option (List (String × Int))) (body : String),
      getTransferMetricsHandle decode ⟨500, body⟩ = (none, none)) := by
  refine ⟨rfl, ?_, fun _ _ => rfl, fun _ _ => rfl, fun _ _ => rfl,
    fun _ => rfl, fun _ => rfl, fun _ => rfl, fun _ _ => rfl⟩
  intro resp
  unfold deleteAccessKeyHandle
  split <;> rfl

/-! ## Claim C5: the zero case of parse and format -/

/-- C5 (amended): `ParseDataSize` returns `(0, nil)` for the empty string —
the empty check precedes trimming, so a whitespace-only input instead trims
to the empty string inside `humanize.ParseBytes` and is rejected with an
error — and formatting zero yields the empty string. -/
theorem c5_zero_parse_format :
    parseDataSize "" = (0, none) ∧
    dataSizeString 0 = "" ∧
    (∀ s : String, s ≠ "" → goTrimSpace s = "" →
      parseDataSize s = (0, some (DataSizeError.invalidFormat ""))) := by
  refine ⟨rfl, rfl, ?_⟩
  intro s hs ht
  simp only [parseDataSize, if_neg hs, ht]
  rfl

/-- Witness for C5 at the whitespace-only input `" "`. -/
theorem c5_zero_parse_format_witness :
    parseDataSize " " = (0, some (DataSizeError.invalidFormat "")) :=
  c5_zero_parse_format.2.2 " " (by decide) (by decide)

/-- Counterexample to C5 as stated: the whitespace-only input `" "` does
not parse to `(0, nil)`. -/
theorem c5_counterexample_whitespace_rejected :
    parseDataSize " " ≠ (0, none) := by decide

/-! ## Claim C10: `AddServer` guards and insertion -/

/-- C10: `AddServer` returns an error and leaves the registry untouched
(no entry changed, no save attempted) when the name already exists or the
certificate fingerprint is empty; otherwise it inserts exactly the one new
entry and leaves every other name unchanged. -/
theorem c10_addServer_guards_and_insertion :
    (∀ (servers : Servers) (name url certSha256 : String),
      (servers name).isSome = true →
        addServer servers name url certSha256 =
          ⟨servers, some (AddServerError.alreadyExists name), false⟩) ∧
    (∀ (servers : Servers) (name url : String),
      servers name = none →
        addServer servers name url "" =
          ⟨servers, some AddServerError.certRequired, false⟩) ∧
    (∀ (servers : Servers) (name url certSha256 : String),
      servers name = none → certSha256 ≠ "" →
        (addServer servers name url certSha256).servers name =
          some ⟨name, url, certSha256⟩ ∧
        (∀ m, m ≠ name →
          (addServer servers name url certSha256).servers m = servers m) ∧
        (addServer servers name url certSha256).err = none ∧
        (addServer servers name url certSha256).saved = true) := by
  refine ⟨?_, ?_, ?_⟩
  · intro servers name url certSha256 h
    simp [addServer, h]
  · intro servers name url h
    simp [addServer, h]
  · intro servers name url certSha256 h hc
    have hns : (servers name).isSome = false := by rw [h]; rfl
    unfold addServer
    rw [if_neg (by simp [hns]), if_neg hc]
    refine ⟨by simp, ?_, rfl, rfl⟩
    intro m hm
    simp [if_neg hm]

/-- Witness for C10 on a concrete one-entry registry. -/
theorem c10_addServer_witness :
    (addServer demoServers "alpha" "u" "CD").err =
      some (AddServerError.alreadyExists "alpha") ∧
    (addServer demoServers "beta" "u" "").err = some AddServerError.certRequired ∧
    (addServer demoServers "beta" "u" "CD").servers "beta" =
      some ⟨"beta", "u", "CD"⟩ ∧
    (addServer demoServers "beta" "u" "CD").servers "alpha" = demoServers "alpha" := by
  have h1 := c10_addServer_guards_and_insertion.1 demoServers "alpha" "u" "CD" (by decide)
  have h2 := c10_addServer_guards_and_insertion.2.1 demoServers "beta" "u" (by decide)
  have h3 := c10_addServer_guards_and_insertion.2.2 demoServers "beta" "u" "CD"
    (by decide) (by decide)
  exact ⟨by rw [h1], by rw [h2], h3.1, h3.2.1 "alpha" (by decide)⟩

/-! ## Claim C8: delete-by-name as list + scan + delete -/

/-- `findKeyID` is the ID of the first name match, with `""` as the
not-found sentinel. -/
theorem findKeyID_eq_firstNameMatch (keys : List AccessKey) (keyName : String) :
    findKeyID keys keyName =
      (match firstNameMatch keys keyName with
       | some k => k.id
       | none => "") := by
  induction keys with
  | nil => rfl
  | cons k ks ih =>
    by_cases h : k.name = keyName
    · simp [findKeyID, firstNameMatch, h]
    · simp only [findKeyID, if_neg h, ih]
      simp [firstNameMatch, List.find?, h]

/-- C8 (amended): delete-by-name resolves the first key whose name matches
and invokes the ID-based delete with its ID, provided that ID is nonempty
(the implementation uses the empty string as its not-found sentinel); with
no name match it fails as not found and issues no delete; in the two-key
scenario, deleting `"B"` deletes ID `"2"` and deleting `"C"` is not found. -/
theorem c8_delete_by_name_composition :
    (∀ (keys : List AccessKey) (keyName : String) (k : AccessKey),
      firstNameMatch keys keyName = some k → k.id ≠ "" →
        deleteAccessKeyByName keys keyName = .deleted k.id) ∧
    (∀ (keys : List AccessKey) (keyName : String),
      firstNameMatch keys keyName = none →
        deleteAccessKeyByName keys keyName = .notFound) ∧
    deleteAccessKeyByName [mkKey "1" "A", mkKey "2" "B"] "B" =
      ByNameOutcome.deleted "2" ∧
    deleteAccessKeyByName [mkKey "1" "A", mkKey "2" "B"] "C" =
      ByNameOutcome.notFound := by
  refine ⟨?_, ?_, by decide, by decide⟩
  · intro keys keyName k hf hid
    unfold deleteAccessKeyByName
    rw [findKeyID_eq_firstNameMatch, hf]
    simp [hid]
  · intro keys keyName hf
    unfold deleteAccessKeyByName
    rw [findKeyID_eq_firstNameMatch, hf]
    rfl

/-- Witness for C8 applying both general parts at concrete listings. -/
theorem c8_delete_by_name_witness :
    deleteAccessKeyByName [mkKey "7" "X"] "X" = ByNameOutcome.deleted "7" ∧
    deleteAccessKeyByName [mkKey "7" "X"] "Y" = ByNameOutcome.notFound :=
  ⟨c8_delete_by_name_composition.1 [mkKey "7" "X"] "X" (mkKey "7" "X")
      (by decide) (by decide),
   c8_delete_by_name_composition.2.1 [mkKey "7" "X"] "Y" (by decide)⟩

/-- Counterexample to C8 as stated: a listing whose first matching key has
the empty ID.  The scan does find the key, yet the operation reports
not-found and never invokes the delete on that ID. -/
theorem c8_counterexample_empty_id_sentinel :
    firstNameMatch [mkKey "" "B"] "B" = some (mkKey "" "B") ∧
    deleteAccessKeyByName [mkKey "" "B"] "B" = ByNameOutcome.notFound := by
  exact ⟨by decide, by decide⟩

/-! ## Claim C7: parser determinism and the method-list message -/

/-- C7 (amended): the outcome and the parsed value of
`EncryptionMethod.UnmarshalText` do not depend on the map iteration order,
but the error message for an invalid method enumerates the valid methods in
that (run-dependent, unspecified) order, so byte-for-byte message equality
across runs does not hold. -/
theorem c7_enc_method_determinism :
    ∀ (o1 o2 : List String),
      List.Perm o1 validEncryptionMethods →
      List.Perm o2 validEncryptionMethods →
      ∀ t : String,
        (encryptionMethodUnmarshalWith o1 t).toOption =
          (encryptionMethodUnmarshalWith o2 t).toOption ∧
        (∀ e, encryptionMethodUnmarshalWith o1 t = .error e →
          e = "invalid encryption method. Valid methods are: " ++ joinComma o1) := by
  intro o1 o2 _ _ t
  by_cases he : t = ""
  · subst he
    exact ⟨rfl, by intro e h; simp [encryptionMethodUnmarshalWith] at h⟩
  · by_cases hm : goTrimSpace t ∈ validEncryptionMethods
    · refine ⟨?_, ?_⟩
      · simp [encryptionMethodUnmarshalWith, he, hm]
      · intro e h
        simp [encryptionMethodUnmarshalWith, he, hm] at h
    · refine ⟨?_, ?_⟩
      · simp only [encryptionMethodUnmarshalWith, if_neg he]
        rw [if_neg (by simpa using hm), if_neg (by simpa using hm)]
        rfl
      · intro e h
        simp [encryptionMethodUnmarshalWith, he, hm] at h
        exact h.symm

/-- Witness for C7: two admissible map orders agree on the parse outcome of
an invalid input. -/
theorem c7_enc_method_determinism_witness :
    (encryptionMethodUnmarshalWith validEncryptionMethods "bad").toOption =
      (encryptionMethodUnmarshalWith
        ["chacha20-poly1305", "aes-256-gcm", "aes-192-gcm", "aes-128-gcm"]
        "bad").toOption :=
  (c7_enc_method_determinism validEncryptionMethods
    ["chacha20-poly1305", "aes-256-gcm", "aes-192-gcm", "aes-128-gcm"]
    (List.Perm.refl _) (by decide) "bad").1

/-- Counterexample to C7 as stated: two runs whose map iteration orders are
both permutations of the valid-method set produce different error messages
on the same invalid input. -/
theorem c7_counterexample_message_order :
    List.Perm ["chacha20-poly1305", "aes-256-gcm", "aes-192-gcm", "aes-128-gcm"]
      validEncryptionMethods ∧
    encryptionMethodUnmarshalWith validEncryptionMethods "rc4" ≠
      encryptionMethodUnmarshalWith
        ["chacha20-poly1305", "aes-256-gcm", "aes-192-gcm", "aes-128-gcm"] "rc4" := by
  refine ⟨by decide, fun h => ?_⟩
  have h2 := congrArg
    (fun r => match r with | Except.error e => e | Except.ok v => v) h
  exact absurd h2 (by decide)

/-! ## Claim C2: the pinned-transport verification function -/

/-- C2: the per-handshake verifier succeeds exactly when the peer presented
at least one certificate and the uppercased hex SHA-256 digest of the first
certificate equals the uppercased expected fingerprint (so the comparison
is case-insensitive on both sides); on a digest mismatch it fails with the
certificate-mismatch error, and on an empty certificate list with the
distinct no-certificate error. -/
theorem c2_verify_peer_certificate_characterization :
    ∀ (f : String) (rawCerts : List (List Nat)),
      (verifyPeerCertificate f rawCerts = .ok () ↔
        ∃ c cs, rawCerts = c :: cs ∧
          goToUpper (hexEncodeToString (sha256Digest c)) = goToUpper f) ∧
      (rawCerts = [] →
        verifyPeerCertificate f rawCerts = .error .noCertificates) ∧
      (∀ c cs, rawCerts = c :: cs →
        goToUpper (hexEncodeToString (sha256Digest c)) ≠ goToUpper f →
        verifyPeerCertificate f rawCerts = .error .sha256Mismatch) := by
  intro f rawCerts
  cases rawCerts with
  | nil =>
    refine ⟨?_, fun _ => rfl, ?_⟩
    · simp [verifyPeerCertificate]
    · intro c cs h
      cases h
  | cons c cs =>
    by_cases hc : goToUpper (hexEncodeToString (sha256Digest c)) = goToUpper f
    · refine ⟨?_, ?_, ?_⟩
      · simp [verifyPeerCertificate, hc]
      · intro h
        cases h
      · intro c2 cs2 h hne
        cases h
        exact absurd hc hne
    · refine ⟨?_, ?_, ?_⟩
      · simp only [verifyPeerCertificate, if_pos (by exact hc)]
        constructor
        · intro h
          cases h
        · rintro ⟨c2, cs2, h, heq⟩
          cases h
          exact absurd heq hc
      · intro h
        cases h
      · intro c2 cs2 h _
        cases h
        simp [verifyPeerCertificate, hc]

/-- Witness for C2: the digest of the certificate bytes `[1, 2, 3]` is
`039058c6…cfb81`; a lowercase fingerprint matches (case-insensitivity), an
empty certificate list and a wrong fingerprint give the two distinct
errors. -/
theorem c2_verify_peer_certificate_witness :
    verifyPeerCertificate
      "039058c6f2c0cb492c533b0a4d14ef77cc0f78abccced5287d84a1a2011cfb81"
      [[1, 2, 3]] = .ok () ∧
    verifyPeerCertificate
      "039058c6f2c0cb492c533b0a4d14ef77cc0f78abccced5287d84a1a2011cfb81"
      [] = .error .noCertificates ∧
    verifyPeerCertificate "00" [[1, 2, 3]] = .error .sha256Mismatch := by
  refine ⟨?_, ?_, ?_⟩
  · exact (c2_verify_peer_certificate_characterization _ _).1.mpr
      ⟨[1, 2, 3], [], rfl, by decide⟩
  · exact (c2_verify_peer_certificate_characterization _ _).2.1 rfl
  · exact (c2_verify_peer_certificate_characterization _ _).2.2 [1, 2, 3] []
      rfl (by decide)

/-! ## Character and trimming lemmas shared by the parser claims -/

theorem dropWhile_eq_self_of_all_false {p : Char → Bool} {cs : List Char}
    (h : ∀ c ∈ cs, p c = false) : cs.dropWhile p = cs := by
  cases cs with
  | nil => rfl
  | cons c rest =>
    rw [List.dropWhile_cons, h c (List.mem_cons_self c rest)]
    simp

theorem trimL_eq_self {cs : List Char}
    (h : ∀ c ∈ cs, isGoSpace c = false) : trimL cs = cs := by
  unfold trimL
  rw [dropWhile_eq_self_of_all_false h,
    dropWhile_eq_self_of_all_false (fun c hc => h c (List.mem_reverse.mp hc)),
    List.reverse_reverse]

theorem not_space_of_hex {c : Char} (h : isHexDigit c = true) :
    isGoSpace c = false := by
  simp only [isGoSpace, Bool.or_eq_false_iff, decide_eq_false_iff_not]
  refine ⟨⟨⟨⟨⟨?_, ?_⟩, ?_⟩, ?_⟩, ?_⟩, ?_⟩ <;>
    (intro he; subst he; exact absurd h (by decide))

theorem not_space_of_digit {c : Char} (h : isAsciiDigit c = true) :
    isGoSpace c = false := by
  refine not_space_of_hex ?_
  simp only [isHexDigit, Bool.or_eq_true]
  exact Or.inl (Or.inl h)

theorem string_mk_ne_empty {cs : List Char} (h : cs ≠ []) :
    String.mk cs ≠ "" := by
  intro he
  exact h (by simpa using congrArg String.data he)

/-! ## Claim C6: the certificate-fingerprint parser -/

/-- C6 (amended): `CertSHA256.UnmarshalText` rejects only input that is
empty before trimming (a whitespace-only input trims to the empty string,
which decodes as empty hex and is accepted); every nonempty even-length
hex string is accepted unchanged, and input whose trimmed text does not
decode as hexadecimal is rejected. -/
theorem c6_cert_fingerprint_unmarshal :
    certSHA256Unmarshal "" = .error .empty ∧
    (∀ ds : List Char, ds ≠ [] → ds.length % 2 = 0 →
      (∀ c ∈ ds, isHexDigit c = true) →
      certSHA256Unmarshal (String.mk ds) = .ok (String.mk ds)) ∧
    (∀ s : String, s ≠ "" → hexDecodable (goTrimSpace s).data = false →
      certSHA256Unmarshal s = .error .badHex) := by
  refine ⟨rfl, ?_, ?_⟩
  · intro ds hne heven hhex
    have hmk : String.mk ds ≠ "" := string_mk_ne_empty hne
    have htrim : trimL ds = ds :=
      trimL_eq_self (fun c hc => not_space_of_hex (hhex c hc))
    have hdec : hexDecodable (goTrimSpace (String.mk ds)).data = true := by
      show hexDecodable (trimL ds) = true
      rw [htrim]
      simp only [hexDecodable, Bool.and_eq_true, List.all_eq_true,
        decide_eq_true_eq]
      exact ⟨hhex, heven⟩
    unfold certSHA256Unmarshal
    rw [if_neg hmk, if_pos hdec]
    show Except.ok (String.mk (trimL ds)) = Except.ok (String.mk ds)
    rw [htrim]
  · intro s hs hdec
    unfold certSHA256Unmarshal
    rw [if_neg hs, if_neg (by simp [hdec])]

/-- Witness for C6: a mixed-case even-length hex string is accepted
unchanged; a non-hex string is rejected. -/
theorem c6_cert_fingerprint_unmarshal_witness :
    certSHA256Unmarshal "deadBEEF" = .ok "deadBEEF" ∧
    certSHA256Unmarshal "xyz" = .error .badHex :=
  ⟨c6_cert_fingerprint_unmarshal.2.1 "deadBEEF".data (by decide) (by decide)
      (by decide),
   c6_cert_fingerprint_unmarshal.2.2 "xyz" (by decide) (by decide)⟩

/-- Counterexample to C6 as stated: the whitespace-only input `" "` is not
rejected — it trims to the empty string, decodes as empty hex and is
accepted with an empty stored hash. -/
theorem c6_counterexample_whitespace_accepted :
    certSHA256Unmarshal " " = .ok "" := rfl

/-! ## Claim C9: the port parser -/

/-- `strconv.Atoi` on a nonempty all-digit list returns its value. -/
theorem goAtoi_digits (c : Char) (rest : List Char)
    (hd : ∀ d ∈ c :: rest, isAsciiDigit d = true)
    (hle : natOfDigits (c :: rest) ≤ 65535) :
    goAtoi (c :: rest) = some ((natOfDigits (c :: rest) : Int)) := by
  have hcd : isAsciiDigit c = true := hd c (List.mem_cons_self c rest)
  have hplus : ¬(c = '+') := by
    intro h
    subst h
    exact absurd hcd (by decide)
  have hminus : ¬(c = '-') := by
    intro h
    subst h
    exact absurd hcd (by decide)
  have hany : ((c :: rest).any fun d => !isAsciiDigit d) = false := by
    rw [List.any_eq_false]
    intro d hdm
    simp [hd d hdm]
  have hnonneg : (0 : Int) ≤ (natOfDigits (c :: rest) : Int) :=
    Int.natCast_nonneg _
  have hcast : (natOfDigits (c :: rest) : Int) ≤ 65535 := by exact_mod_cast hle
  simp only [goAtoi, if_neg hminus, if_neg hplus, hany, decide_eq_false hplus,
    decide_eq_false hminus, Bool.or_self, Bool.false_eq_true, if_false,
    List.cons_ne_nil, one_mul]
  rw [if_neg (by push_cast; omega)]

/-- C9: `Port.UnmarshalText` accepts exactly the integers in `[1, 65535]`:
every trimmed digit string whose value is in range parses to that value,
every successful parse lies in range, and `"0"`, `"-1"`, `"65536"`, the
empty string, `"8080.5"` and non-numeric text are all rejected. -/
theorem c9_port_parser_range :
    (∀ (s : String) (ds : List Char),
      goTrimSpace s = String.mk ds → ds ≠ [] →
      (∀ c ∈ ds, isAsciiDigit c = true) →
      1 ≤ natOfDigits ds → natOfDigits ds ≤ 65535 →
      portUnmarshal s = .ok ((natOfDigits ds : Int))) ∧
    (∀ (s : String) (n : Int), portUnmarshal s = .ok n → 1 ≤ n ∧ n ≤ 65535) ∧
    portUnmarshal "0" = .error (.outOfRange 0) ∧
    portUnmarshal "-1" = .error (.outOfRange (-1)) ∧
    portUnmarshal "65536" = .error (.outOfRange 65536) ∧
    portUnmarshal "" = .error .empty ∧
    portUnmarshal "8080.5" = .error .notANumber ∧
    portUnmarshal "not-a-number" = .error .notANumber := by
  refine ⟨?_, ?_, rfl, rfl, rfl, rfl, rfl, rfl⟩
  · intro s ds htrim hne hdig h1 h2
    have hs : s ≠ "" := by
      intro h
      subst h
      exact hne (by simpa using congrArg String.data htrim.symm)
    unfold portUnmarshal
    rw [if_neg hs, htrim]
    cases ds with
    | nil => exact absurd rfl hne
    | cons c rest =>
      have hdata : (String.mk (c :: rest)).data = c :: rest := rfl
      rw [hdata, goAtoi_digits c rest hdig h2]
      have hv1 : (1 : Int) ≤ (natOfDigits (c :: rest) : Int) := by exact_mod_cast h1
      have hv2 : (natOfDigits (c :: rest) : Int) ≤ 65535 := by exact_mod_cast h2
      show (if (natOfDigits (c :: rest) : Int) < 1 ∨
            65535 < ((natOfDigits (c :: rest)) : Int)
          then Except.error (PortError.outOfRange ((natOfDigits (c :: rest) : Int)))
          else Except.ok ((natOfDigits (c :: rest) : Int))) =
        Except.ok ((natOfDigits (c :: rest) : Int))
      rw [if_neg (by omega)]
  · intro s n h
    unfold portUnmarshal at h
    split at h
    · cases h
    · split at h
      · cases h
      · split at h
        · cases h
        · next hrange =>
          injection h with h2
          subst h2
          omega

/-! ## Lemmas on the `humanize.ParseBytes` pipeline (claims C3 and C4) -/

theorem takeWhile_all_true {p : Char → Bool} : ∀ {cs : List Char},
    (∀ c ∈ cs, p c = true) → cs.takeWhile p = cs := by
  intro cs
  induction cs with
  | nil => intro _; rfl
  | cons c rest ih =>
    intro h
    rw [List.takeWhile_cons, h c (List.mem_cons_self c rest)]
    simp [ih (fun d hd => h d (List.mem_cons_of_mem c hd))]

theorem dropWhile_all_true {p : Char → Bool} : ∀ {cs : List Char},
    (∀ c ∈ cs, p c = true) → cs.dropWhile p = [] := by
  intro cs
  induction cs with
  | nil => intro _; rfl
  | cons c rest ih =>
    intro h
    rw [List.dropWhile_cons, h c (List.mem_cons_self c rest)]
    simp [ih (fun d hd => h d (List.mem_cons_of_mem c hd))]

theorem scanDigit_true {c : Char} (h : isAsciiDigit c = true) :
    (isAsciiDigit c || (c = '.') || (c = ',')) = true := by
  simp [h]

/-- The scan of `ParseBytes` splits a digit prefix from a suffix whose head
is not scannable. -/
theorem scanNum_append (ds rest : List Char)
    (hds : ∀ c ∈ ds, isAsciiDigit c = true)
    (hrest : rest = [] ∨ ∃ c rs, rest = c :: rs ∧
      (isAsciiDigit c || (c = '.') || (c = ',')) = false) :
    scanNum (ds ++ rest) = (ds, rest) := by
  induction ds with
  | nil =>
    rcases hrest with h | ⟨c, rs, h, hc⟩
    · subst h; rfl
    · subst h
      simp [scanNum, hc]
  | cons d dtail ih =>
    have hd := hds d (List.mem_cons_self d dtail)
    have hih := ih (fun c hc => hds c (List.mem_cons_of_mem d hc))
    simp [scanNum, scanDigit_true hd, hih]

theorem filter_comma_digits {ds : List Char}
    (h : ∀ c ∈ ds, isAsciiDigit c = true) :
    ds.filter (fun c => c ≠ ',') = ds := by
  rw [List.filter_eq_self]
  intro c hc
  have hcd := h c hc
  have hne : c ≠ ',' := by
    intro he
    subst he
    exact absurd hcd (by decide)
  simpa using hne

/-- `ParseFloat` on a nonempty all-digit scan result returns the correctly
rounded value of the digits. -/
theorem parseFloatRat_digits (ds : List Char) (hne : ds ≠ [])
    (hd : ∀ c ∈ ds, isAsciiDigit c = true)
    (hlt : ¬ pow2Q 1024 ≤ floatRound ((natOfDigits ds : ℚ))) :
    parseFloatRat ds = some (floatRound ((natOfDigits ds : ℚ))) := by
  have hany : (ds.any fun c => !(isAsciiDigit c || (c = '.'))) = false := by
    rw [List.any_eq_false]
    intro c hc
    simp [hd c hc]
  have hcount : ds.count '.' = 0 := by
    rw [List.count_eq_zero]
    intro hmem
    exact absurd (hd _ hmem) (by decide)
  have hnotdot : ∀ c ∈ ds, (decide ¬(c = '.')) = true := by
    intro c hc
    have hcd := hd c hc
    simp only [decide_not, Bool.not_eq_true', decide_eq_false_iff_not]
    intro he
    subst he
    exact absurd hcd (by decide)
  have htake : ds.takeWhile (fun c => c ≠ '.') = ds := takeWhile_all_true hnotdot
  have hdrop : ds.dropWhile (fun c => c ≠ '.') = [] := dropWhile_all_true hnotdot
  have hlen : ¬ (ds.length + (([] : List Char).drop 1).length = 0) := by
    simp only [List.drop_nil, List.length_nil, add_zero]
    intro h0
    exact hne (List.length_eq_zero.mp h0)
  unfold parseFloatRat
  rw [hany]
  rw [if_neg (by simp)]
  rw [if_neg (by omega)]
  rw [htake, hdrop]
  rw [if_neg hlen]
  have h0 : natOfDigits ([] : List Char) = 0 := rfl
  simp only [List.drop_nil, h0, Nat.cast_zero, zero_div, add_zero]
  rw [if_neg hlt]

/-- `ParseBytes` fails whenever the first character of its input is not
scannable (not a digit, dot or comma): the number part is empty and
`ParseFloat` rejects it. -/
theorem humanizeParseBytes_nonscan_head (t : String) (c : Char)
    (rest : List Char) (hdata : t.data = c :: rest)
    (hc : (isAsciiDigit c || (c = '.') || (c = ',')) = false) :
    humanizeParseBytes t = none := by
  unfold humanizeParseBytes
  rw [hdata]
  simp [scanNum, hc, parseFloatRat]

/-- `Rat.floor` agrees with the `FloorRing` floor on `ℚ`. -/
theorem rat_floor_natCast (n : Nat) : ((n : ℚ)).floor = (n : Int) := by
  have h : ((n : ℚ)).floor = ⌊(n : ℚ)⌋ := rfl
  rw [h, Int.floor_natCast]

/-- Facts checked once over the whole unit-spelling table: every spelling is
nonempty, contains no white space and no scannable character, survives
trimming, resolves in the go-humanize unit table to its multiplier after
lowercasing, and its multiplier is positive. -/
theorem unitSpellings_facts :
    ∀ p ∈ unitSpellings,
      p.1.data ≠ [] ∧
      (∀ c ∈ p.1.data, isGoSpace c = false ∧
        (isAsciiDigit c || (c = '.') || (c = ',')) = false) ∧
      trimL p.1.data = p.1.data ∧
      lookupUnit (goToLower (String.mk p.1.data)) = some p.2 ∧
      1 ≤ p.2 := by decide

/-! ## Claim C4: sign rejection and the nonnegativity range -/

/-- C4 (amended): every input whose trimmed text starts with a minus sign
is rejected with `(0, error)` (the scan consumes no character, so
`ParseFloat` sees the empty string); and a parsed value is nonnegative
whenever the underlying unsigned byte count is below `2^63` — byte counts
at or above `2^63` (reachable through the `E`/`P` units of the library, see
the counterexample) wrap to a negative `int64`. -/
theorem c4_parse_data_size_sign_and_range :
    (∀ s : String, s ≠ "" →
      (goTrimSpace s).data.head? = some '-' →
      parseDataSize s = (0, some (DataSizeError.invalidFormat (goTrimSpace s)))) ∧
    (∀ (s : String) (u : Nat), s ≠ "" →
      humanizeParseBytes (goTrimSpace s) = some u → u < 2 ^ 63 →
      parseDataSize s = (((u : Nat) : Int), none) ∧ 0 ≤ ((u : Nat) : Int)) ∧
    parseDataSize "-1GB" = (0, some (DataSizeError.invalidFormat "-1GB")) := by
  refine ⟨?_, ?_, rfl⟩
  · intro s hs hh
    obtain ⟨rest, hdata⟩ : ∃ rest, (goTrimSpace s).data = '-' :: rest := by
      cases hd : (goTrimSpace s).data with
      | nil => rw [hd] at hh; cases hh
      | cons a rs =>
        rw [hd] at hh
        have ha : a = '-' := by
          have := Option.some.inj hh
          exact this
        exact ⟨rs, by rw [ha]⟩
    have hnone := humanizeParseBytes_nonscan_head (goTrimSpace s) '-' rest hdata
      (by decide)
    simp only [parseDataSize, if_neg hs, hnone]
  · intro s u hs hu hlt
    refine ⟨?_, Int.natCast_nonneg u⟩
    simp only [parseDataSize, if_neg hs, hu, toInt64, if_pos hlt]

set_option maxRecDepth 10000 in
set_option exponentiation.threshold 2000 in
unseal Rat.mul Rat.add Rat.inv Rat.sub in
/-- Witness for C4 at a sign-bearing input and a small in-range size. -/
theorem c4_parse_data_size_sign_and_range_witness :
    parseDataSize "- 5" = (0, some (DataSizeError.invalidFormat "- 5")) ∧
    parseDataSize "1KB" = (1000, none) :=
  ⟨c4_parse_data_size_sign_and_range.1 "- 5" (by decide) (by decide),
   (c4_parse_data_size_sign_and_range.2.1 "1KB" 1000 (by decide) (by decide)
      (by decide)).1⟩

set_option maxRecDepth 10000 in
set_option exponentiation.threshold 2000 in
unseal Rat.mul Rat.add Rat.inv Rat.sub in
/-- Counterexample to C4 as stated: `"10EB"` (ten decimal exabytes,
`10^19` bytes) parses without error, and the `int64` reinterpretation of
the `uint64` byte count is negative. -/
theorem c4_counterexample_exabytes_wrap_negative :
    parseDataSize "10EB" = (-8446744073709551616, none) ∧
    (-8446744073709551616 : Int) < 0 := by
  exact ⟨by decide, by decide⟩

set_option exponentiation.threshold 2000 in
unseal Rat.mul Rat.add Rat.inv Rat.sub in
/-- `2^63` bytes is far below the `math.MaxFloat64` guard of the library. -/
theorem two_pow_63_lt_maxFloat64 : ((2 ^ 63 : Nat) : ℚ) < maxFloat64Q := by
  decide

/-! ## Claim C3: unit multipliers of `ParseDataSize` -/

set_option maxRecDepth 10000 in
set_option exponentiation.threshold 2000 in
unseal Rat.mul Rat.add Rat.inv Rat.sub in
/-- C3 (amended): for every nonempty digit string and every case variant of
the decimal units `B, KB, MB, GB, TB` (multipliers `1000^k`) and binary
units `KiB, MiB, GiB, TiB` (multipliers `1024^k`), `ParseDataSize` returns
the digit value times the multiplier — provided the magnitude and the
product are exactly representable as `float64` (`floatRound` fixes them)
and the product is below `2^63`; fractional magnitudes are multiplied and
truncated, e.g. `"1.5GB"` parses to exactly `1500000000` bytes.  Without
the representability proviso the statement fails (see the
counterexample). -/
theorem c3_data_size_unit_multipliers :
    (∀ (ds : List Char) (u : String) (m : Nat),
      ds ≠ [] → (∀ c ∈ ds, isAsciiDigit c = true) →
      (u, m) ∈ unitSpellings →
      floatRound ((natOfDigits ds : ℚ)) = ((natOfDigits ds : ℚ)) →
      floatRound ((natOfDigits ds : ℚ) * (m : ℚ)) =
        (natOfDigits ds : ℚ) * (m : ℚ) →
      natOfDigits ds * m < 2 ^ 63 →
      parseDataSize (String.mk (ds ++ u.data)) =
        (((natOfDigits ds * m : Nat) : Int), none)) ∧
    parseDataSize "1.5GB" = (1500000000, none) := by
  constructor
  · intro ds u m hne hdig hmem hq hprod hlt
    obtain ⟨hune, hchars, htrimu, hlookup, hm1⟩ := unitSpellings_facts (u, m) hmem
    have hnospace : ∀ c ∈ ds ++ u.data, isGoSpace c = false := by
      intro c hc
      rcases List.mem_append.mp hc with h | h
      · exact not_space_of_digit (hdig c h)
      · exact (hchars c h).1
    have hmkne : String.mk (ds ++ u.data) ≠ "" := by
      refine string_mk_ne_empty ?_
      intro h
      exact hne (List.append_eq_nil.mp h).1
    have hrest : u.data = [] ∨ ∃ c rs, u.data = c :: rs ∧
        (isAsciiDigit c || (c = '.') || (c = ',')) = false := by
      cases hu : u.data with
      | nil => exact Or.inl rfl
      | cons c rs =>
        refine Or.inr ⟨c, rs, rfl, ?_⟩
        exact (hchars c (by rw [hu]; exact List.mem_cons_self c rs)).2
    have hscan : scanNum (ds ++ u.data) = (ds, u.data) :=
      scanNum_append _ _ hdig hrest
    have hnm : natOfDigits ds ≤ natOfDigits ds * m :=
      Nat.le_mul_of_pos_right _ hm1
    have hn63 : natOfDigits ds < 2 ^ 63 := lt_of_le_of_lt hnm hlt
    have hfloatn : ¬ pow2Q 1024 ≤ floatRound ((natOfDigits ds : ℚ)) := by
      rw [hq]
      show ¬ ((2 ^ 1024 : Nat) : ℚ) ≤ ((natOfDigits ds : ℚ))
      rw [not_le, Nat.cast_lt]
      calc natOfDigits ds < 2 ^ 63 := hn63
        _ < 2 ^ 1024 := by norm_num
    have hpf : parseFloatRat ds = some (floatRound ((natOfDigits ds : ℚ))) :=
      parseFloatRat_digits ds hne hdig hfloatn
    have htrimall : trimL (ds ++ u.data) = ds ++ u.data := trimL_eq_self hnospace
    have hts : goTrimSpace (String.mk (ds ++ u.data)) = String.mk (ds ++ u.data) := by
      show String.mk (trimL (ds ++ u.data)) = String.mk (ds ++ u.data)
      rw [htrimall]
    have hu2 : goTrimSpace (String.mk u.data) = String.mk u.data := by
      show String.mk (trimL u.data) = String.mk u.data
      rw [htrimu]
    have hmaxlt : ¬ maxFloat64Q ≤ (((natOfDigits ds * m : Nat)) : ℚ) := by
      rw [not_le]
      calc (((natOfDigits ds * m : Nat)) : ℚ) < ((2 ^ 63 : Nat) : ℚ) := by
            exact_mod_cast hlt
        _ < maxFloat64Q := two_pow_63_lt_maxFloat64
    have htn : ((natOfDigits ds * m : Nat) : Int).toNat = natOfDigits ds * m :=
      Int.toNat_natCast _
    have hhb : humanizeParseBytes (String.mk (ds ++ u.data)) =
        some (natOfDigits ds * m) := by
      unfold humanizeParseBytes
      simp only
      rw [hscan]
      simp only
      rw [filter_comma_digits hdig, hpf]
      simp only
      rw [hu2, hlookup]
      simp only
      rw [hq, hprod, ← Nat.cast_mul]
      rw [if_neg hmaxlt, rat_floor_natCast]
      rw [htn, Nat.mod_eq_of_lt (lt_of_lt_of_le hlt (by norm_num))]
    unfold parseDataSize
    rw [if_neg hmkne, hts]
    simp only
    rw [hhb]
    simp only [toInt64, if_pos hlt]
  · decide

set_option maxRecDepth 10000 in
set_option exponentiation.threshold 2000 in
unseal Rat.mul Rat.add Rat.inv Rat.sub in
/-- Witness for C3: a decimal and a binary unit at concrete magnitudes. -/
theorem c3_data_size_unit_multipliers_witness :
    parseDataSize "25KB" = (25000, none) ∧
    parseDataSize "3MiB" = (3145728, none) := by
  have h1 := c3_data_size_unit_multipliers.1 ['2', '5'] "KB" (10 ^ 3)
    (by decide) (by decide) (by decide) (by decide) (by decide) (by decide)
  have h2 := c3_data_size_unit_multipliers.1 ['3'] "MiB" (2 ^ 20)
    (by decide) (by decide) (by decide) (by decide) (by decide) (by decide)
  exact ⟨h1, h2⟩

set_option maxRecDepth 10000 in
set_option exponentiation.threshold 2000 in
unseal Rat.mul Rat.add Rat.inv Rat.sub in
/-- Counterexample to C3 as stated: the magnitude `2^53 + 1` is not
representable as `float64`, so `"9007199254740993B"` parses to
`9007199254740992` bytes — not `n * 1000^0 = 9007199254740993`. -/
theorem c3_counterexample_float_precision :
    parseDataSize "9007199254740993B" = (9007199254740992, none) ∧
    (9007199254740992 : Int) ≠ 9007199254740993 := by
  exact ⟨by decide, by decide⟩

/-- Witness for C9: a padded in-range port parses to its value. -/
theorem c9_port_parser_range_witness :
    portUnmarshal " 8080 " = .ok 8080 := by
  have h := c9_port_parser_range.1 " 8080 " "8080".data (by decide) (by decide)
    (by decide) (by decide) (by decide)
  exact h
